import Mathlib

/-!
Verification development for the record-reconciliation pipeline of the
`ringlypro-public-business-collector` repository.

The JavaScript source is shallowly embedded:

* JavaScript field values are modelled by `JVal` (null/undefined collapsed
  into one absent marker `vnull`, strings, rational numbers in place of JS
  floats, booleans).  JS truthiness is `truthy`.
* Business records are modelled by the structure `BizRec`: the thirteen
  canonical fields plus the five Google-Places metadata fields.  A field
  whose value is `vnull` models a key that is absent or holds
  `null`/`undefined` (the pipeline never distinguishes these for the
  fields it reads).
* Code that can raise a `TypeError` (calling a string method on a
  non-string) returns `Except String _`, with the error message standing
  in for the thrown exception.
* The WHATWG `URL` constructor is modelled by `parseHttpUrl`, restricted
  to `http`/`https` URLs (the only ones `normalizeUrl` can produce):
  authority splitting, host validation/lower-casing, default-port
  removal, and `/`-completion of an empty path.  Unicode host mapping and
  percent-encoding are out of scope; hosts containing forbidden
  characters (spaces etc.) fail exactly as the real parser throws.
* `Date.now()` / `Math.random()` in the last-resort deduplication key are
  modelled by a per-call-unique tag derived from the record's position,
  matching the documented guarantee that such keys never collide.
* Wall-clock metadata (`generated_at`, `execution_time_ms`) is omitted
  from the result models; no claim concerns it.
-/

/-- A JavaScript value as it appears in the pipeline's record fields.
`vnull` stands for both `null` and `undefined` (the absent marker). -/
inductive JVal where
  | vnull
  | vstr (s : String)
  | vnum (q : ℚ)
  | vbool (b : Bool)

deriving DecidableEq

deriving instance DecidableEq for Except

/-- Model of `String.prototype.startsWith` (kernel-reducible, unlike the
byte-level builtin). -/
def jsStartsWith (s pre : String) : Bool :=
  pre.toList.isPrefixOf s.toList

/-- A rational literal in lowest terms, written as an explicit
numerator/denominator pair so that concrete record computations reduce
inside the kernel. -/
def qlit (n : Int) (d : Nat) (h1 : d ≠ 0 := by decide)
    (h2 : n.natAbs.Coprime d := by decide) : ℚ := ⟨n, d, h1, h2⟩

/-- JS truthiness of a `JVal`: `null`/`undefined`, the empty string, `0`
and `false` are falsy, everything else truthy. -/
def truthy : JVal → Bool
  | .vnull => false
  | .vstr s => s ≠ ""
  | .vnum q => q ≠ 0
  | .vbool b => b

/-- Whitespace characters removed by `String.prototype.trim` (ASCII
subset; the records in this pipeline contain no exotic whitespace). -/
def isWsChar (c : Char) : Bool :=
  c.toNat = 32 || c.toNat = 9 || c.toNat = 10 || c.toNat = 13

/-- Whitespace removal from both ends of a character list. -/
def trimList (l : List Char) : List Char :=
  ((l.dropWhile isWsChar).reverse.dropWhile isWsChar).reverse

/-- Model of `String.prototype.trim`. -/
def jsTrim (s : String) : String :=
  ⟨trimList s.data⟩

/-- Model of `String.prototype.toUpperCase` (ASCII case mapping). -/
def upperStr (s : String) : String :=
  ⟨s.toList.map Char.toUpper⟩

/-- Model of `String.prototype.toLowerCase` (ASCII case mapping). -/
def lowerStr (s : String) : String :=
  ⟨s.toList.map Char.toLower⟩

/-- Model of `phone.replace(/\D/g, '')`: keep only decimal digits. -/
def digitsOf (s : String) : String :=
  ⟨s.toList.filter Char.isDigit⟩

/-- String rendering used by template literals for the values that can
reach one (`${record.website}` etc.). -/
def jsTemplateStr : JVal → String
  | .vnull => "null"
  | .vstr s => s
  | .vnum q => toString q
  | .vbool b => toString b

/--
`normalizePhone` from `src/utils/deduplication.js`:

```js
function normalizePhone(phone) {
  if (!phone) return null;
  const digits = phone.replace(/\D/g, '');
  if (digits.length === 10) { return `+1${digits}`; }
  if (digits.length === 11 && digits.startsWith('1')) { return `+${digits}`; }
  if (phone.startsWith('+')) { return phone; }
  return `+${digits}`;
}
```

A truthy non-string raises a `TypeError` at `phone.replace` (modelled by
`.error`).
-/
def normalizePhone (phone : JVal) : Except String JVal :=
  if truthy phone = false then .ok .vnull
  else
    match phone with
    | .vstr s =>
      let digits := digitsOf s
      if digits.length = 10 then .ok (.vstr ("+1" ++ digits))
      else if digits.length = 11 && jsStartsWith digits "1" then .ok (.vstr ("+" ++ digits))
      else if jsStartsWith s "+" then .ok (.vstr s)
      else .ok (.vstr ("+" ++ digits))
    | _ => .error "phone.replace is not a function"

/-- Characters that make the WHATWG parser reject a host for a special
scheme (the model's subset: includes the whitespace and delimiters that
matter here). -/
def forbiddenHostChar (c : Char) : Bool :=
  c = ' ' || c = '\t' || c = '\n' || c = '\r' || c = '#' || c = '/' ||
  c = ':' || c = '?' || c = '@' || c = '[' || c = ']' || c = '\\' ||
  c = '%' || c = '<' || c = '>' || c = '^' || c = '|' || c = '"'

/-- Split a character list at the first character satisfying `p`
(the delimiter stays with the second part). -/
def splitAtFirst (p : Char → Bool) (l : List Char) : List Char × List Char :=
  (l.takeWhile (fun c => ! p c), l.dropWhile (fun c => ! p c))

/-- Authority of an `http(s)` URL: the text after the scheme up to the
first `/`, `?` or `#`. -/
def authorityDelim (c : Char) : Bool :=
  c = '/' || c = '?' || c = '#'

/-- Drop a `userinfo@` prefix from an authority (everything up to the
last `@`). -/
def dropUserinfo (l : List Char) : List Char :=
  if l.contains '@' then ((l.reverse.takeWhile (fun c => c ≠ '@')).reverse) else l

/-- Split `host[:port]`, cutting at the last `:` when one is present. -/
def splitHostPort (l : List Char) : List Char × Option (List Char) :=
  if l.contains ':' then
    ((l.reverse.dropWhile (fun c => c ≠ ':')).reverse.dropLast,
      some ((l.reverse.takeWhile (fun c => c ≠ ':')).reverse))
  else (l, none)

/-- Serialize the port: empty and default ports disappear, a non-numeric
or oversized port is a parse failure. -/
def serializePort (scheme : String) : Option (List Char) → Option String
  | none => some ""
  | some [] => some ""
  | some ds =>
    if ds.all Char.isDigit then
      let n := ds.foldl (fun a c => a * 10 + (c.toNat - 48)) 0
      if 65535 < n then none
      else if scheme = "https" && n = 443 then some ""
      else if scheme = "http" && n = 80 then some ""
      else some (":" ++ toString n)
    else none

/--
Model of `new URL(s).href` for strings beginning with `http://` or
`https://` (the only inputs `normalizeUrl` parses).  Returns `none` where
the real constructor throws: empty host, a forbidden character in the
host, or a malformed port.  The host is lower-cased, a default port is
dropped, and an empty path serializes as `/`; path, query and fragment
are otherwise kept verbatim (the percent-encoding the real serializer
applies there is irrelevant to every claim).
-/
def parseHttpUrl (s : String) : Option String :=
  let (scheme, rest) :=
    if jsStartsWith s "https://" then (some "https", (s.toList).drop 8)
    else if jsStartsWith s "http://" then (some "http", (s.toList).drop 7)
    else (none, [])
  match scheme with
  | none => none
  | some sch =>
    let (auth, tail) := splitAtFirst authorityDelim rest
    let hostPort := dropUserinfo auth
    let (hostCs, portCs) := splitHostPort hostPort
    if hostCs = [] then none
    else if hostCs.any forbiddenHostChar then none
    else
      match serializePort sch portCs with
      | none => none
      | some portStr =>
        let host := lowerStr (String.mk hostCs)
        let (pathCs, qfCs) := splitAtFirst (fun c => c = '?' || c = '#') tail
        let path := if pathCs = [] then "/" else String.mk pathCs
        some (sch ++ "://" ++ host ++ portStr ++ path ++ String.mk qfCs)

/-- `replace(/\/$/, '')`: strip one trailing slash. -/
def stripTrailingSlash (s : String) : String :=
  if s.toList.getLast? = some '/' then ⟨s.toList.dropLast⟩ else s

/-- `replace(/^https?:\/\/www\./, 'https://')`: collapse one leading
`www.` after the scheme, always emitting `https://`. -/
def wwwCollapse (s : String) : String :=
  if jsStartsWith s "https://www." then "https://" ++ ⟨s.toList.drop 12⟩
  else if jsStartsWith s "http://www." then "https://" ++ ⟨s.toList.drop 11⟩
  else s

/--
`normalizeUrl` from `src/utils/deduplication.js`:

```js
function normalizeUrl(url) {
  if (!url) return null;
  try {
    if (!url.startsWith('http://') && !url.startsWith('https://')) {
      url = `https://${url}`;
    }
    const parsed = new URL(url);
    return parsed.href.replace(/\/$/, '').replace(/^https?:\/\/www\./, 'https://');
  } catch (e) {
    return url;
  }
}
```

Note the reassignment of `url` before the parse: the `catch` returns the
*prefixed* string.  A truthy non-string makes `url.startsWith` throw,
which the `catch` turns into returning the value unchanged.  The function
never throws.  `withHttpsPrefix` is the prefixing reassignment
(`url = `https://${url}``), named so the theorems can speak about the
string the parse was attempted on.
-/
def withHttpsPrefix (s : String) : String :=
  if !(jsStartsWith s "http://") && !(jsStartsWith s "https://")
  then "https://" ++ s else s

def normalizeUrl (url : JVal) : JVal :=
  if truthy url = false then .vnull
  else
    match url with
    | .vstr s =>
      match parseHttpUrl (withHttpsPrefix s) with
      | some href => .vstr (wwwCollapse (stripTrailingSlash href))
      | none => .vstr (withHttpsPrefix s)
    | v => v

-- sanity checks on the field normalizers

/-- A business record: the thirteen canonical fields of the pipeline plus
the five Google-Places metadata fields that `fetchFromGooglePlaces`
attaches.  `vnull` in an extra field models the key being absent. -/
structure BizRec where
  business_name : JVal
  category : JVal
  street : JVal
  city : JVal
  state : JVal
  postal_code : JVal
  country : JVal
  phone : JVal
  email : JVal
  website : JVal
  source_url : JVal
  confidence : JVal
  notes : JVal
  google_place_id : JVal := .vnull
  google_rating : JVal := .vnull
  google_reviews : JVal := .vnull
  google_types : JVal := .vnull
  is_operational : JVal := .vnull

deriving DecidableEq

/-- `record.f?.trim() || null`: nullish gives the absent marker, a string
is trimmed (`|| null` turns the empty string into the marker), a truthy
non-string raises a `TypeError` at `.trim`. -/
def trimField : JVal → Except String JVal
  | .vnull => .ok .vnull
  | .vstr s =>
    let t := jsTrim s
    .ok (if t = "" then .vnull else .vstr t)
  | _ => .error "trim is not a function"

/-- `record.f?.trim()?.toUpperCase() || null`. -/
def trimUpperField : JVal → Except String JVal
  | .vnull => .ok .vnull
  | .vstr s =>
    let t := upperStr (jsTrim s)
    .ok (if t = "" then .vnull else .vstr t)
  | _ => .error "trim is not a function"

/-- `record.country?.trim()?.toUpperCase() || 'US'`. -/
def trimUpperDefaultUS : JVal → Except String JVal
  | .vnull => .ok (.vstr "US")
  | .vstr s =>
    let t := upperStr (jsTrim s)
    .ok (if t = "" then .vstr "US" else .vstr t)
  | _ => .error "trim is not a function"

/-- `record.email?.trim()?.toLowerCase() || null`. -/
def trimLowerField : JVal → Except String JVal
  | .vnull => .ok .vnull
  | .vstr s =>
    let t := lowerStr (jsTrim s)
    .ok (if t = "" then .vnull else .vstr t)
  | _ => .error "trim is not a function"

/-- `typeof record.confidence === 'number' ? record.confidence : 0.5`. -/
def confidenceField : JVal → JVal
  | .vnum q => .vnum q
  | _ => .vnum (qlit 1 2)

/--
`normalizeRecord` from `src/utils/deduplication.js`:

```js
function normalizeRecord(record) {
  return {
    business_name: record.business_name?.trim() || null,
    category: record.category?.trim() || null,
    street: record.street?.trim() || null,
    city: record.city?.trim() || null,
    state: record.state?.trim()?.toUpperCase() || null,
    postal_code: record.postal_code?.trim() || null,
    country: record.country?.trim()?.toUpperCase() || 'US',
    phone: normalizePhone(record.phone),
    email: record.email?.trim()?.toLowerCase() || null,
    website: normalizeUrl(record.website),
    source_url: record.source_url?.trim() || null,
    confidence: typeof record.confidence === 'number' ? record.confidence : 0.5,
    notes: record.notes?.trim() || null
  };
}
```

The object literal evaluates its properties in source order; the first
`TypeError` (a truthy non-string hitting `.trim`/`.replace`) aborts the
whole call, modelled by the `Except` chain.  The returned object has
exactly the thirteen keys above: the Google metadata fields of the input
are discarded (their model value in the output is the absent marker).
-/
def normalizeRecord (record : BizRec) : Except String BizRec := do
  let business_name ← trimField record.business_name
  let category ← trimField record.category
  let street ← trimField record.street
  let city ← trimField record.city
  let state ← trimUpperField record.state
  let postal_code ← trimField record.postal_code
  let country ← trimUpperDefaultUS record.country
  let phone ← normalizePhone record.phone
  let email ← trimLowerField record.email
  let website := normalizeUrl record.website
  let source_url ← trimField record.source_url
  let confidence := confidenceField record.confidence
  let notes ← trimField record.notes
  .ok { business_name, category, street, city, state, postal_code, country,
        phone, email, website, source_url, confidence, notes }

/-- An all-absent record, used to build concrete test records. -/
def blankRec : BizRec :=
  { business_name := .vnull, category := .vnull, street := .vnull,
    city := .vnull, state := .vnull, postal_code := .vnull,
    country := .vnull, phone := .vnull, email := .vnull,
    website := .vnull, source_url := .vnull, confidence := .vnull,
    notes := .vnull }

/-- `x.toLowerCase()` on a field that was only checked for truthiness:
a string lower-cases, anything else raises a `TypeError`. -/
def jsToLowerE : JVal → Except String String
  | .vstr s => .ok (lowerStr s)
  | _ => .error "toLowerCase is not a function"

/-- `record.business_name?.toLowerCase() || 'unknown'` (tier 4). -/
def lowerOrUnknown : JVal → Except String String
  | .vnull => .ok "unknown"
  | .vstr s => .ok (if lowerStr s = "" then "unknown" else lowerStr s)
  | _ => .error "toLowerCase is not a function"

/--
`getDeduplicationKey` from `src/utils/deduplication.js`:

```js
function getDeduplicationKey(record) {
  if (record.website) { return `website:${record.website}`; }
  if (record.business_name && record.phone && record.postal_code) {
    return `composite:${record.business_name.toLowerCase()}:${record.phone}:${record.postal_code}`;
  }
  if (record.business_name && record.postal_code) {
    return `name-zip:${record.business_name.toLowerCase()}:${record.postal_code}`;
  }
  if (record.source_url) {
    return `source:${record.source_url}:${record.business_name?.toLowerCase() || 'unknown'}`;
  }
  return `unique:${Date.now()}:${Math.random()}`;
}
```

The last-resort key built from `Date.now()`/`Math.random()` is passed in
as `uniqueTag` by the engine (one fresh tag per call, never colliding, as
the source comment guarantees).  A truthy non-string `business_name`
raises a `TypeError` at `.toLowerCase`.
-/
def getDeduplicationKey (uniqueTag : String) (record : BizRec) : Except String String :=
  if truthy record.website then
    .ok ("website:" ++ jsTemplateStr record.website)
  else if truthy record.business_name && truthy record.phone && truthy record.postal_code then do
    let low ← jsToLowerE record.business_name
    .ok ("composite:" ++ low ++ ":" ++ jsTemplateStr record.phone ++ ":" ++
          jsTemplateStr record.postal_code)
  else if truthy record.business_name && truthy record.postal_code then do
    let low ← jsToLowerE record.business_name
    .ok ("name-zip:" ++ low ++ ":" ++ jsTemplateStr record.postal_code)
  else if truthy record.source_url then do
    let low ← lowerOrUnknown record.business_name
    .ok ("source:" ++ jsTemplateStr record.source_url ++ ":" ++ low)
  else .ok uniqueTag

/-- `Array.prototype.join` with a separator. -/
def joinStrs (sep : String) : List String → String
  | [] => ""
  | [x] => x
  | x :: xs => x ++ sep ++ joinStrs sep xs

/-- `[existing.notes, incoming.notes].filter(Boolean).join(' | ')`: keeps
the truthy notes and joins them; with no truthy notes the result is the
empty string (not the absent marker). -/
def joinNotes (a b : JVal) : JVal :=
  .vstr (joinStrs " | " (([a, b].filter truthy).map jsTemplateStr))

/-- One key of the gap-filling loop in `mergeRecords`:
`if (!merged[key] && incoming[key]) merged[key] = incoming[key]`. -/
def gapFill (ex inc : JVal) : JVal :=
  if truthy ex = false && truthy inc then inc else ex

/-- `incoming.confidence > existing.confidence`.  Both collectors and the
normalizer always produce numeric confidences; for any other value shape
the JS comparison involves NaN and yields `false`, which is how the
model treats every non-numeric operand. -/
def confGT (inc ex : JVal) : Bool :=
  match inc, ex with
  | .vnum a, .vnum b => decide (b < a)
  | _, _ => false

/--
`mergeRecords` from `src/utils/deduplication.js`:

```js
function mergeRecords(existing, incoming) {
  if (incoming.confidence > existing.confidence) {
    return { ...existing, ...incoming,
             notes: [existing.notes, incoming.notes].filter(Boolean).join(' | ') };
  }
  const merged = { ...existing };
  Object.keys(incoming).forEach(key => {
    if (!merged[key] && incoming[key]) { merged[key] = incoming[key]; }
  });
  merged.notes = [existing.notes, incoming.notes].filter(Boolean).join(' | ');
  return merged;
}
```

In the first branch the spread of `incoming` overwrites every field of
`existing` — including fields whose incoming value is the absent marker.
-/
def mergeRecords (existing incoming : BizRec) : BizRec :=
  if confGT incoming.confidence existing.confidence then
    { incoming with notes := joinNotes existing.notes incoming.notes }
  else
    { business_name := gapFill existing.business_name incoming.business_name,
      category := gapFill existing.category incoming.category,
      street := gapFill existing.street incoming.street,
      city := gapFill existing.city incoming.city,
      state := gapFill existing.state incoming.state,
      postal_code := gapFill existing.postal_code incoming.postal_code,
      country := gapFill existing.country incoming.country,
      phone := gapFill existing.phone incoming.phone,
      email := gapFill existing.email incoming.email,
      website := gapFill existing.website incoming.website,
      source_url := gapFill existing.source_url incoming.source_url,
      confidence := gapFill existing.confidence incoming.confidence,
      notes := joinNotes existing.notes incoming.notes,
      google_place_id := gapFill existing.google_place_id incoming.google_place_id,
      google_rating := gapFill existing.google_rating incoming.google_rating,
      google_reviews := gapFill existing.google_reviews incoming.google_reviews,
      google_types := gapFill existing.google_types incoming.google_types,
      is_operational := gapFill existing.is_operational incoming.is_operational }

/-- Read the record stored under a key (JS `Map.get`/`Map.has`). -/
def getAssoc : List (String × BizRec) → String → Option BizRec
  | [], _ => none
  | (k', v) :: rest, k => if k' = k then some v else getAssoc rest k

/-- JS `Map.set`: updating an existing key keeps its original position;
a new key is appended at the end. -/
def setAssoc : List (String × BizRec) → String → BizRec → List (String × BizRec)
  | [], k, v => [(k, v)]
  | (k', v') :: rest, k, v =>
    if k' = k then (k, v) :: rest else (k', v') :: setAssoc rest k v

/-- The loop of `deduplicateRecords`: the JS `Map` is an insertion-ordered
association list, `i` numbers the records to supply fresh last-resort
keys. -/
def dedupGo : Nat → List (String × BizRec) → List BizRec → Except String (List (String × BizRec))
  | _, seen, [] => .ok seen
  | i, seen, r :: rs => do
    let key ← getDeduplicationKey ("unique:" ++ toString i) r
    match getAssoc seen key with
    | some existing => dedupGo (i+1) (setAssoc seen key (mergeRecords existing r)) rs
    | none => dedupGo (i+1) (seen ++ [(key, r)]) rs

/--
`deduplicateRecords` from `src/utils/deduplication.js`:

```js
function deduplicateRecords(records) {
  const seen = new Map();
  const deduplicated = [];
  for (const record of records) {
    const key = getDeduplicationKey(record);
    if (seen.has(key)) {
      const existing = seen.get(key);
      seen.set(key, mergeRecords(existing, record));
    } else {
      seen.set(key, record);
    }
  }
  return Array.from(seen.values());
}
```
-/
def deduplicateRecords (records : List BizRec) : Except String (List BizRec) :=
  (dedupGo 0 [] records).map (fun seen => seen.map Prod.snd)

/-- Sample record: dedup sanity input, lower confidence. -/
def sampleA : BizRec :=
  { blankRec with website := .vstr "https://a.com", confidence := .vnum (qlit 3 5) }

/-- Sample record: dedup sanity input, higher confidence, with notes. -/
def sampleB : BizRec :=
  { blankRec with
    website := .vstr "https://a.com",
    confidence := .vnum (qlit 9 10),
    notes := .vstr "verified" }

/-- `(x.confidence || 0)` as used by the sort comparator: a number is
itself, a falsy value is `0`.  (A non-numeric truthy confidence would
make the JS comparator involve NaN; such records never reach this sort —
both collectors attach numeric confidences — so the model maps the
remaining shapes to `0`/`1` by JS numeric coercion.) -/
def confOrZero : JVal → ℚ
  | .vnum q => q
  | .vbool b => if b then 1 else 0
  | _ => 0

/-- Insert a record into a descending-by-confidence list, after every
element of greater or equal confidence (the placement a stable sort
gives an element arriving later). -/
def insertDesc (x : BizRec) : List BizRec → List BizRec
  | [] => [x]
  | y :: ys =>
    if confOrZero y.confidence < confOrZero x.confidence then x :: y :: ys
    else y :: insertDesc x ys

/-- Model of `arr.sort((a, b) => (b.confidence || 0) - (a.confidence || 0))`:
a stable sort by descending confidence (`Array.prototype.sort` is
guaranteed stable). -/
def sortByConfDesc (l : List BizRec) : List BizRec :=
  l.foldl (fun acc x => insertDesc x acc) []

/-- Metadata of a `collectFromAllSources` result (the wall-clock fields
`generated_at`/`execution_time_ms` are omitted; no claim concerns them). -/
structure CollectMeta where
  category : String
  geography : String
  total_found : Nat
  sources_used : List String
  errors : Option (List (String × String))

deriving DecidableEq

/-- A `collectFromAllSources` result. -/
structure CollectResult where
  meta : CollectMeta
  rows : List BizRec

deriving DecidableEq

/--
`collectFromAllSources` from `src/collectors/index.js` (the deployed
variant, in which the OpenCorporates block is commented out): fetch from
Google Places when the API key is configured (a thrown fetch error is
captured into the error list and contributes zero candidates), then
deduplicate the combined list, sort by descending confidence and truncate
to `maxResults`.  The fetcher's outcome is the `googleFetch` argument; no
`normalizeRecord` call occurs anywhere in this path.  A `TypeError`
escaping the deduplication step (there is no `try` around it) propagates
to the caller, hence the `Except` result.
-/
def collectFromAllSources (category geography : String) (googleKeySet : Bool)
    (googleFetch : Except String (List BizRec)) (maxResults : Nat) :
    Except String CollectResult := do
  let (allResults, sourcesUsed, errors) :=
    if googleKeySet then
      match googleFetch with
      | .ok gs =>
        (gs, if gs.length > 0 then ["Google Places"] else [],
          ([] : List (String × String)))
      | .error e => ([], [], [("Google Places", e)])
    else ([], [], [])
  let deduplicated ← deduplicateRecords allResults
  let sorted := (sortByConfDesc deduplicated).take maxResults
  .ok { meta := { category, geography, total_found := sorted.length,
                  sources_used := sourcesUsed,
                  errors := if errors.length > 0 then some errors else none },
        rows := sorted }

/-- Metadata of a `quickCollect` result. -/
structure QuickMeta where
  category : String
  geography : String
  total_found : Nat
  sources_used : List String
  error : Option String

deriving DecidableEq

/-- A `quickCollect` result. -/
structure QuickResult where
  meta : QuickMeta
  rows : List BizRec

deriving DecidableEq

/--
`quickCollect` from `src/collectors/index.js`: try Google Places first
(when configured); when it throws or returns no rows, fall back to
OpenCorporates; when that also throws, return the explicit
all-sources-failed result instead of raising.
-/
def quickCollect (category geography : String) (googleKeySet : Bool)
    (googleFetch ocFetch : Except String (List BizRec)) : QuickResult :=
  let viaOC : QuickResult :=
    match ocFetch with
    | .ok results =>
      { meta := { category, geography, total_found := results.length,
                  sources_used := ["OpenCorporates"], error := none },
        rows := results }
    | .error _ =>
      { meta := { category, geography, total_found := 0, sources_used := [],
                  error := some "All data sources failed" },
        rows := [] }
  if googleKeySet then
    match googleFetch with
    | .ok results =>
      if results.length > 0 then
        { meta := { category, geography, total_found := results.length,
                    sources_used := ["Google Places"], error := none },
          rows := results }
      else viaOC
    | .error _ => viaOC
  else viaOC

/-- The `meta` object of a parsed LLM response (`none` models a response
whose JSON lacks a usable `meta` object, making the orchestrator's
`result.meta.… = …` assignments throw). -/
structure LLMMeta where
  category : String
  geography : String
  total_found : Int
  sources_used : List String

deriving DecidableEq

/-- A parsed LLM response: `rows = none` models a JSON object whose
`rows` key is missing or not an array. -/
structure LLMParsed where
  meta : Option LLMMeta
  rows : Option (List BizRec)

deriving DecidableEq

/-- Metadata of an `orchestrate` result. -/
structure OrchMeta where
  category : String
  geography : String
  total_found : Int
  sources_used : List String
  deduplication_applied : Option Bool := none
  duplicates_removed : Option Nat := none
  error : Option String := none
  orchestrator_version : Option String := none

deriving DecidableEq

/-- An `orchestrate` result; `rows = none` models the success path on a
response with no rows array, which leaves `result.rows` as it was. -/
structure OrchResult where
  meta : OrchMeta
  rows : Option (List BizRec)

deriving DecidableEq

/--
`orchestrate` from `src/orchestrator.js`: everything (prompt build, LLM
call, parse, normalization, deduplication, meta updates) runs inside one
`try`; any failure lands in the `catch`, which returns a well-formed
result with empty `rows`, `total_found: 0`, empty `sources_used` and the
error message in `meta.error` — it never rethrows.  The combined outcome
of `callLLM` + `parseLLMResponse` is the `llm` argument.  On the success
path the rows (when an array) are mapped through `normalizeRecord`, then
`deduplicateRecords`; a `TypeError` thrown inside either (or a missing
`meta` object hit by the subsequent assignments) is caught by the same
`catch`.
-/
def orchestrate (category geography : String) (llm : Except String LLMParsed) :
    OrchResult :=
  let run : Except String OrchResult := do
    let parsed ← llm
    match parsed.rows with
    | some rs => do
      let normalized ← rs.mapM normalizeRecord
      let deduped ← deduplicateRecords normalized
      match parsed.meta with
      | none => .error "Cannot set properties of undefined"
      | some m =>
        .ok { meta := { category := m.category, geography := m.geography,
                        total_found := (deduped.length : Int),
                        sources_used := m.sources_used,
                        deduplication_applied := some true,
                        duplicates_removed := some (rs.length - deduped.length),
                        orchestrator_version := some "1.0.0" },
              rows := some deduped }
    | none =>
      match parsed.meta with
      | none => .error "Cannot set properties of undefined"
      | some m =>
        .ok { meta := { category := m.category, geography := m.geography,
                        total_found := m.total_found,
                        sources_used := m.sources_used,
                        orchestrator_version := some "1.0.0" },
              rows := none }
  match run with
  | .ok r => r
  | .error msg =>
    { meta := { category, geography, total_found := 0, sources_used := [],
                error := some msg },
      rows := some [] }

/-- A value in the Field Normalizers' documented domain: a string or the
absent marker. -/
def isStrOrNull : JVal → Bool
  | .vnull => true
  | .vstr _ => true
  | _ => false

/-- A candidate whose `business_name` is the number `42`. -/
def numericNameRec : BizRec := { blankRec with business_name := .vnum 42 }

/-- A candidate whose source supplied `confidence: 7`. -/
def overConfidentRec : BizRec := { blankRec with confidence := .vnum (qlit 7 1) }

/-- One field of the no-information-loss property: a field present
(truthy) in either input is present in the merge result. -/
def fieldPres (x y m : JVal) : Bool :=
  !(truthy x || truthy y) || truthy m

/-- The no-information-loss property over all thirteen canonical fields
of a merged record. -/
def presAll (a b m : BizRec) : Bool :=
  fieldPres a.business_name b.business_name m.business_name &&
  fieldPres a.category b.category m.category &&
  fieldPres a.street b.street m.street &&
  fieldPres a.city b.city m.city &&
  fieldPres a.state b.state m.state &&
  fieldPres a.postal_code b.postal_code m.postal_code &&
  fieldPres a.country b.country m.country &&
  fieldPres a.phone b.phone m.phone &&
  fieldPres a.email b.email m.email &&
  fieldPres a.website b.website m.website &&
  fieldPres a.source_url b.source_url m.source_url &&
  fieldPres a.confidence b.confidence m.confidence &&
  fieldPres a.notes b.notes m.notes

/-- Records sharing the key `website:https://x.com`, with recA holding a
phone and the lower confidence. -/
def recA : BizRec :=
  { blankRec with
    website := .vstr "https://x.com",
    phone := .vstr "+18135551234",
    confidence := .vnum (qlit 2 5) }

/-- The higher-confidence twin of `recA`, with no phone. -/
def recB : BizRec :=
  { blankRec with
    website := .vstr "https://x.com",
    confidence := .vnum (qlit 9 10) }

/-- The keys the engine computes for a record sequence, starting at
position `i` (position only feeds the never-colliding last-resort tag). -/
def keysFrom (i : Nat) : List BizRec → Except String (List String)
  | [] => .ok []
  | r :: rs => do
    let k ← getDeduplicationKey ("unique:" ++ toString i) r
    let ks ← keysFrom (i + 1) rs
    .ok (k :: ks)

/-- Left fold of first-seen key collection over an already-collected
prefix. -/
def absorb (acc : List String) : List String → List String
  | [] => acc
  | k :: ks => absorb (if k ∈ acc then acc else acc ++ [k]) ks

/-- The distinct keys of a sequence in first-seen order. -/
def firstSeen (ks : List String) : List String := absorb [] ks

/-- Shorthand for the sort key `(r.confidence || 0)`. -/
def confKey (r : BizRec) : ℚ := confOrZero r.confidence

/-- Descending order between two records, as the comparator induces. -/
def descOrder (u v : BizRec) : Prop := confKey v ≤ confKey u

/-- A record as `fetchFromGooglePlaces` builds it: raw phone formatting,
`country: 'USA'`, Google metadata attached. -/
def googleRawRec : BizRec :=
  { blankRec with
    business_name := .vstr "ABC Realty",
    category := .vstr "Real Estate Agent",
    phone := .vstr "(813) 555-1234",
    postal_code := .vstr "33601",
    country := .vstr "USA",
    source_url := .vstr "https://www.google.com/maps/place/?q=place_id:abc",
    confidence := .vnum (qlit 3 5),
    notes := .vstr "Rating: 4.5 (57 reviews)",
    google_place_id := .vstr "abc",
    google_rating := .vnum (qlit 9 2),
    google_reviews := .vnum (qlit 57 1),
    is_operational := .vbool true }

/-- A candidate whose website host carries a doubled `www.`. -/
def doubleWwwRec : BizRec := { blankRec with website := .vstr "www.www.ex.com" }

/-- Inversion of a successful `normalizeRecord` call: each output field is
the corresponding field normalizer's result, and the Google metadata
fields of the output are absent. -/
theorem normalizeRecord_ok_inv (r c : BizRec) (h : normalizeRecord r = .ok c) :
    trimField r.business_name = .ok c.business_name ∧
    trimField r.category = .ok c.category ∧
    trimField r.street = .ok c.street ∧
    trimField r.city = .ok c.city ∧
    trimUpperField r.state = .ok c.state ∧
    trimField r.postal_code = .ok c.postal_code ∧
    trimUpperDefaultUS r.country = .ok c.country ∧
    normalizePhone r.phone = .ok c.phone ∧
    trimLowerField r.email = .ok c.email ∧
    c.website = normalizeUrl r.website ∧
    trimField r.source_url = .ok c.source_url ∧
    c.confidence = confidenceField r.confidence ∧
    trimField r.notes = .ok c.notes ∧
    c.google_place_id = .vnull ∧ c.google_rating = .vnull ∧
    c.google_reviews = .vnull ∧ c.google_types = .vnull ∧
    c.is_operational = .vnull := by
  unfold normalizeRecord at h
  simp only [bind, Except.bind] at h
  repeat' split at h
  all_goals simp_all
  subst h
  simp_all

/-- `trimField` succeeds on any string-or-absent value. -/
theorem trimField_ok_of_strOrNull (v : JVal) (h : isStrOrNull v = true) :
    ∃ w, trimField v = .ok w := by
  cases v <;> simp_all [isStrOrNull, trimField]

/-- `trimUpperField` succeeds on any string-or-absent value. -/
theorem trimUpperField_ok_of_strOrNull (v : JVal) (h : isStrOrNull v = true) :
    ∃ w, trimUpperField v = .ok w := by
  cases v <;> simp_all [isStrOrNull, trimUpperField]

/-- `trimUpperDefaultUS` succeeds on any string-or-absent value. -/
theorem trimUpperDefaultUS_ok_of_strOrNull (v : JVal) (h : isStrOrNull v = true) :
    ∃ w, trimUpperDefaultUS v = .ok w := by
  cases v <;> simp_all [isStrOrNull, trimUpperDefaultUS]

/-- `trimLowerField` succeeds on any string-or-absent value. -/
theorem trimLowerField_ok_of_strOrNull (v : JVal) (h : isStrOrNull v = true) :
    ∃ w, trimLowerField v = .ok w := by
  cases v <;> simp_all [isStrOrNull, trimLowerField]

/-- `normalizePhone` succeeds on any string-or-absent value. -/
theorem normalizePhone_ok_of_strOrNull (v : JVal) (h : isStrOrNull v = true) :
    ∃ w, normalizePhone v = .ok w := by
  cases v with
  | vnull => exact ⟨.vnull, rfl⟩
  | vstr s =>
    unfold normalizePhone
    dsimp only
    split
    · exact ⟨.vnull, rfl⟩
    · split_ifs <;> exact ⟨_, rfl⟩
  | vnum q => simp [isStrOrNull] at h
  | vbool b => simp [isStrOrNull] at h

/-- C3 amended: totality of `normalizeRecord` on stringly-typed records. -/
theorem normalizeRecord_total_on_strings (r : BizRec)
    (h1 : isStrOrNull r.business_name = true) (h2 : isStrOrNull r.category = true)
    (h3 : isStrOrNull r.street = true) (h4 : isStrOrNull r.city = true)
    (h5 : isStrOrNull r.state = true) (h6 : isStrOrNull r.postal_code = true)
    (h7 : isStrOrNull r.country = true) (h8 : isStrOrNull r.phone = true)
    (h9 : isStrOrNull r.email = true) (h10 : isStrOrNull r.source_url = true)
    (h11 : isStrOrNull r.notes = true) :
    ∃ c, normalizeRecord r = .ok c := by
  obtain ⟨bn, e1⟩ := trimField_ok_of_strOrNull _ h1
  obtain ⟨cat, e2⟩ := trimField_ok_of_strOrNull _ h2
  obtain ⟨st, e3⟩ := trimField_ok_of_strOrNull _ h3
  obtain ⟨ci, e4⟩ := trimField_ok_of_strOrNull _ h4
  obtain ⟨sta, e5⟩ := trimUpperField_ok_of_strOrNull _ h5
  obtain ⟨pc, e6⟩ := trimField_ok_of_strOrNull _ h6
  obtain ⟨co, e7⟩ := trimUpperDefaultUS_ok_of_strOrNull _ h7
  obtain ⟨ph, e8⟩ := normalizePhone_ok_of_strOrNull _ h8
  obtain ⟨em, e9⟩ := trimLowerField_ok_of_strOrNull _ h9
  obtain ⟨su, e10⟩ := trimField_ok_of_strOrNull _ h10
  obtain ⟨no, e11⟩ := trimField_ok_of_strOrNull _ h11
  exact ⟨{ business_name := bn, category := cat, street := st, city := ci,
           state := sta, postal_code := pc, country := co, phone := ph,
           email := em, website := normalizeUrl r.website, source_url := su,
           confidence := confidenceField r.confidence, notes := no },
         by simp [normalizeRecord, bind, Except.bind, e1, e2, e3, e4, e5, e6,
                  e7, e8, e9, e10, e11]⟩

/-- C3 counterexample: a numeric `business_name` makes `normalizeRecord`
throw a `TypeError` (`record.business_name?.trim()` calls `.trim` on a
number) instead of degrading to the absent marker. -/
theorem normalizeRecord_throws_on_numeric_name :
    normalizeRecord numericNameRec = .error "trim is not a function" := by decide

/-- C4 counterexample: on a parse failure the URL normalizer does not
return the original input — `url` was already reassigned to the
`https://`-prefixed string when the `catch` runs. -/
theorem normalizeUrl_parse_failure_not_original :
    normalizeUrl (.vstr "not a url but text") = .vstr "https://not a url but text" ∧
    JVal.vstr "https://not a url but text" ≠ JVal.vstr "not a url but text" := by decide

/-- C4 amended: on a parse failure the URL normalizer returns the string
it attempted to parse — the input itself when it already carried an
`http://`/`https://` prefix, otherwise the input with `https://`
prepended. -/
theorem normalizeUrl_fail_open_returns_attempted (s : String) (h1 : s ≠ "")
    (h2 : parseHttpUrl (withHttpsPrefix s) = none) :
    normalizeUrl (.vstr s) = .vstr (withHttpsPrefix s) := by
  have ht : truthy (.vstr s) = true := by simp [truthy, h1]
  simp only [normalizeUrl, ht]
  rw [h2]
  rfl

/-- Witness for the amended C4 theorem at the spec's own example. -/
theorem normalizeUrl_fail_open_returns_attempted_witness :
    normalizeUrl (.vstr "not a url but text") = .vstr "https://not a url but text" := by
  have h := normalizeUrl_fail_open_returns_attempted "not a url but text"
    (by decide) (by decide)
  simpa using h

/-- C5 counterexample: a `+`-prefixed phone whose stripped digits number
exactly ten is re-derived (`+1` is prepended to the digits), not returned
verbatim — the digit-count branches run before the `+` check. -/
theorem normalizePhone_plus_rederived :
    normalizePhone (.vstr "+8135551234") = .ok (.vstr "+18135551234") ∧
    JVal.vstr "+18135551234" ≠ JVal.vstr "+8135551234" := by decide

/-- C5 amended: a `+`-prefixed phone is returned verbatim unless its
stripped digits number exactly ten, or exactly eleven starting with `1`,
in which case the digit-derived form wins. -/
theorem normalizePhone_plus_verbatim (s : String) (h0 : s ≠ "")
    (h10 : (digitsOf s).length ≠ 10)
    (h11 : ((digitsOf s).length = 11 && jsStartsWith (digitsOf s) "1") = false)
    (hp : jsStartsWith s "+" = true) :
    normalizePhone (.vstr s) = .ok (.vstr s) := by
  have ht : truthy (.vstr s) = true := by simp [truthy, h0]
  simp [normalizePhone, ht, h10, h11, hp]

/-- Witness for the amended C5 theorem at the spec's own example. -/
theorem normalizePhone_plus_verbatim_witness :
    normalizePhone (.vstr "+44 20 7946 0958") = .ok (.vstr "+44 20 7946 0958") :=
  normalizePhone_plus_verbatim "+44 20 7946 0958" (by decide) (by decide)
    (by decide) (by decide)

/-- C7 counterexample: a supplied out-of-range confidence passes through
normalization unclamped, so the output confidence does not lie in
`[0, 1]`. -/
theorem normalizeRecord_confidence_unclamped :
    normalizeRecord overConfidentRec =
      .ok { blankRec with country := .vstr "US", confidence := .vnum (qlit 7 1) } ∧
    ¬ (qlit 7 1 ≤ 1) := by decide

/-- C7 amended: the output confidence is exactly the supplied number when
the source supplied one (no clamping) and `0.5` otherwise; consequently
it lies in `[0, 1]` whenever the supplied number does. -/
theorem normalizeRecord_confidence_passthrough (r c : BizRec)
    (h : normalizeRecord r = .ok c) :
    c.confidence = confidenceField r.confidence ∧
    (∀ q : ℚ, r.confidence = .vnum q → c.confidence = .vnum q) ∧
    ((∀ q : ℚ, r.confidence ≠ .vnum q) → c.confidence = .vnum (qlit 1 2)) ∧
    (∀ q : ℚ, r.confidence = .vnum q → 0 ≤ q → q ≤ 1 →
      ∃ p : ℚ, c.confidence = .vnum p ∧ 0 ≤ p ∧ p ≤ 1) := by
  have hc := (normalizeRecord_ok_inv r c h).2.2.2.2.2.2.2.2.2.2.2.1
  refine ⟨hc, ?_, ?_, ?_⟩
  · intro q hq
    rw [hc, hq]
    rfl
  · intro hnq
    rw [hc]
    cases hv : r.confidence with
    | vnum q => exact absurd hv (hnq q)
    | vnull => rfl
    | vstr s => rfl
    | vbool b => rfl
  · intro q hq h0 h1
    refine ⟨q, ?_, h0, h1⟩
    rw [hc, hq]
    rfl

/-- Witness for the amended C7 theorem on a record with a supplied
in-range confidence. -/
theorem normalizeRecord_confidence_passthrough_witness :
    ∃ p : ℚ,
      ({ blankRec with country := .vstr "US", confidence := .vnum (qlit 9 10) } : BizRec).confidence
        = .vnum p ∧ 0 ≤ p ∧ p ≤ 1 :=
  (normalizeRecord_confidence_passthrough
    { blankRec with confidence := .vnum (qlit 9 10) }
    { blankRec with country := .vstr "US", confidence := .vnum (qlit 9 10) }
    (by decide)).2.2.2 (qlit 9 10) rfl (by decide) (by decide)

/-- C9: on total source failure both orchestration entry points return a
well-formed result — empty rows, `total_found` zero, a populated error
field — rather than raising (the model functions are total, mirroring the
all-enclosing `try`/`catch` in `orchestrate` and the fallback chain in
`quickCollect`). -/
theorem total_failure_wellformed (category geography msg gmsg omsg : String)
    (gk : Bool) :
    orchestrate category geography (.error msg) =
      { meta := { category := category, geography := geography, total_found := 0,
                  sources_used := [], error := some msg },
        rows := some [] } ∧
    quickCollect category geography gk (.error gmsg) (.error omsg) =
      { meta := { category := category, geography := geography, total_found := 0,
                  sources_used := [],
                  error := some "All data sources failed" },
        rows := [] } := by
  refine ⟨rfl, ?_⟩
  cases gk <;> rfl

/-- C10: the Google metadata fields of a candidate do not influence
normalization, and a normalized record carries the absent marker in all
five of them — the output object has exactly the thirteen canonical
keys. -/
theorem normalizeRecord_drops_google_fields (r c : BizRec)
    (g1 g2 g3 g4 g5 : JVal) (h : normalizeRecord r = .ok c) :
    normalizeRecord { r with
        google_place_id := g1,
        google_rating := g2,
        google_reviews := g3,
        google_types := g4,
        is_operational := g5 } =
      normalizeRecord r ∧
    c.google_place_id = .vnull ∧ c.google_rating = .vnull ∧
    c.google_reviews = .vnull ∧ c.google_types = .vnull ∧
    c.is_operational = .vnull := by
  obtain ⟨-, -, -, -, -, -, -, -, -, -, -, -, -, e14, e15, e16, e17, e18⟩ :=
    normalizeRecord_ok_inv r c h
  exact ⟨rfl, e14, e15, e16, e17, e18⟩

/-- Witness for the C10 theorem: a Google-Places-shaped record with all
five metadata fields populated normalizes identically with and without
them. -/
theorem normalizeRecord_drops_google_fields_witness :
    normalizeRecord { blankRec with
        google_place_id := .vstr "ChIJ123",
        google_rating := .vnum (qlit 24 5),
        google_reviews := .vnum (qlit 57 1),
        google_types := .vstr "real_estate_agency",
        is_operational := .vbool true } =
      normalizeRecord blankRec ∧
    ({ blankRec with country := .vstr "US", confidence := .vnum (qlit 1 2) } : BizRec).google_place_id = .vnull := by
  have h := normalizeRecord_drops_google_fields blankRec
    { blankRec with country := .vstr "US", confidence := .vnum (qlit 1 2) }
    (.vstr "ChIJ123") (.vnum (qlit 24 5)) (.vnum (qlit 57 1))
    (.vstr "real_estate_agency") (.vbool true) (by decide)
  exact ⟨h.1, h.2.1⟩

/-- Presence survives one field of the gap-filling loop: if either side
is truthy, so is the filled field. -/
theorem gapFill_pres (x y : JVal) (h : truthy x || truthy y) :
    truthy (gapFill x y) = true := by
  unfold gapFill
  cases hx : truthy x <;> cases hy : truthy y <;> simp_all

/-- A string is nonempty when its character list is. -/
theorem stringMk_ne_empty (l : List Char) (h : l ≠ []) : (⟨l⟩ : String) ≠ "" := by
  intro he
  exact h (congrArg String.data he)

/-- A nonempty string stays nonempty after appends on either side. -/
theorem append_mid_ne_empty (s t : String) : s ++ " | " ++ t ≠ "" := by
  intro habs
  have hl := congrArg String.length habs
  simp only [String.length_append] at hl
  have h3 : (" | " : String).length = 3 := rfl
  rw [h3] at hl
  simp at hl

/-- Unfolding lemma: truthiness of a string value. -/
theorem truthy_vstr (s : String) : truthy (.vstr s) = decide (s ≠ "") := rfl

/-- Presence survives the notes join for string-or-absent notes. -/
theorem joinNotes_pres (x y : JVal) (hx : isStrOrNull x = true)
    (hy : isStrOrNull y = true) (h : truthy x || truthy y) :
    truthy (joinNotes x y) = true := by
  cases hx' : truthy x with
  | true =>
    cases x with
    | vstr s =>
      have hs : s ≠ "" := by simpa [truthy] using hx'
      cases hy' : truthy y with
      | true =>
        cases y with
        | vstr t =>
          have ht : t ≠ "" := by simpa [truthy] using hy'
          simp only [joinNotes, List.filter, hx', hy', List.map, jsTemplateStr,
            joinStrs, truthy_vstr]
          simpa using append_mid_ne_empty s t
        | vnull => simp [truthy] at hy'
        | vnum q => simp [isStrOrNull] at hy
        | vbool b => simp [isStrOrNull] at hy
      | false =>
        simp only [joinNotes, List.filter, hx', hy', List.map, jsTemplateStr,
          joinStrs, truthy_vstr]
    | vnull => simp [truthy] at hx'
    | vnum q => simp [isStrOrNull] at hx
    | vbool b => simp [isStrOrNull] at hx
  | false =>
    have hy' : truthy y = true := by simpa [hx'] using h
    cases y with
    | vstr t =>
      have ht : t ≠ "" := by simpa [truthy] using hy'
      simp only [joinNotes, List.filter, hx', hy', List.map, jsTemplateStr,
        joinStrs, truthy_vstr]
    | vnull => simp [truthy] at hy'
    | vnum q => simp [isStrOrNull] at hy
    | vbool b => simp [isStrOrNull] at hy

/-- The gap-filling branch satisfies the per-field property. -/
theorem fieldPres_gapFill (x y : JVal) : fieldPres x y (gapFill x y) = true := by
  unfold fieldPres gapFill
  cases hx : truthy x <;> cases hy : truthy y <;> simp_all

/-- The joined notes satisfy the per-field property for string-or-absent
notes. -/
theorem fieldPres_joinNotes (x y : JVal) (hx : isStrOrNull x = true)
    (hy : isStrOrNull y = true) : fieldPres x y (joinNotes x y) = true := by
  unfold fieldPres
  cases h : (truthy x || truthy y) with
  | false => rfl
  | true => simp [joinNotes_pres x y hx hy h]

/-- C2 counterexample: `recA` and `recB` share a deduplication key and
`recA.phone` is present, yet `merge(recA, recB)` has an absent phone —
the higher-confidence spread overwrites a present field with the absent
marker, and the two merge orders do not converge. -/
theorem mergeRecords_loses_present_field :
    getDeduplicationKey "unique:0" recA = .ok "website:https://x.com" ∧
    getDeduplicationKey "unique:1" recB = .ok "website:https://x.com" ∧
    truthy recA.phone = true ∧
    (mergeRecords recA recB).phone = .vnull ∧
    truthy (mergeRecords recB recA).phone = true := by decide

/-- C2 amended: when neither record dominates in confidence (equal
numeric confidences), merging in either order loses no present field:
every canonical field truthy in one input is truthy in both merge
results.  (When one confidence strictly dominates, the spread branch can
replace present fields of `existing` with the absent marker, as the
counterexample shows.) -/
theorem mergeRecords_equal_confidence_no_loss (a b : BizRec) (q : ℚ)
    (ha : a.confidence = .vnum q) (hb : b.confidence = .vnum q)
    (hna : isStrOrNull a.notes = true) (hnb : isStrOrNull b.notes = true) :
    presAll a b (mergeRecords a b) = true ∧
    presAll b a (mergeRecords b a) = true := by
  have hab : confGT b.confidence a.confidence = false := by
    rw [ha, hb]; simp [confGT]
  have hba : confGT a.confidence b.confidence = false := by
    rw [ha, hb]; simp [confGT]
  constructor
  · unfold mergeRecords
    rw [hab, if_neg (by simp)]
    unfold presAll
    simp only [fieldPres_gapFill, fieldPres_joinNotes _ _ hna hnb, Bool.and_self]
  · unfold mergeRecords
    rw [hba, if_neg (by simp)]
    unfold presAll
    simp only [fieldPres_gapFill, fieldPres_joinNotes _ _ hnb hna, Bool.and_self]

/-- Witness for the amended C2 theorem on two records of equal
confidence with complementary fields. -/
theorem mergeRecords_equal_confidence_no_loss_witness :
    presAll recA { recB with confidence := .vnum (qlit 2 5) }
      (mergeRecords recA { recB with confidence := .vnum (qlit 2 5) }) = true ∧
    presAll { recB with confidence := .vnum (qlit 2 5) } recA
      (mergeRecords { recB with confidence := .vnum (qlit 2 5) } recA) = true :=
  mergeRecords_equal_confidence_no_loss recA
    { recB with confidence := .vnum (qlit 2 5) } (qlit 2 5)
    (by decide) (by decide) (by decide) (by decide)

/-- Witness for the amended C3 theorem on a stringly-typed candidate. -/
theorem normalizeRecord_total_on_strings_witness :
    ∃ c, normalizeRecord { blankRec with
      business_name := .vstr " ABC Realty ",
      phone := .vstr "8135551234",
      state := .vstr "fl" } = .ok c :=
  normalizeRecord_total_on_strings _ (by decide) (by decide) (by decide)
    (by decide) (by decide) (by decide) (by decide) (by decide) (by decide)
    (by decide) (by decide)

/-- `getDeduplicationKey` succeeds whenever `business_name` is a string
or absent (the only field a key tier calls a string method on). -/
theorem getDeduplicationKey_ok (u : String) (r : BizRec)
    (h : isStrOrNull r.business_name = true) :
    ∃ k, getDeduplicationKey u r = .ok k := by
  cases hb : r.business_name with
  | vnull =>
    unfold getDeduplicationKey
    rw [hb]
    simp only [lowerOrUnknown, bind, Except.bind]
    split_ifs
    all_goals first
      | exact ⟨_, rfl⟩
      | (exfalso; simp_all [truthy])
  | vstr s =>
    unfold getDeduplicationKey
    rw [hb]
    simp only [jsToLowerE, lowerOrUnknown, bind, Except.bind]
    split_ifs <;> exact ⟨_, rfl⟩
  | vnum q => simp [isStrOrNull, hb] at h
  | vbool b => simp [isStrOrNull, hb] at h

theorem keysFrom_length (i : Nat) (rs : List BizRec) (ks : List String)
    (h : keysFrom i rs = .ok ks) : ks.length = rs.length := by
  induction rs generalizing i ks with
  | nil => simp [keysFrom] at h; simp [← h]
  | cons r rs ih =>
    simp only [keysFrom, bind, Except.bind] at h
    cases hk : getDeduplicationKey ("unique:" ++ toString i) r with
    | error e => rw [hk] at h; exact absurd h (by simp)
    | ok k =>
      rw [hk] at h
      cases hks : keysFrom (i + 1) rs with
      | error e => rw [hks] at h; exact absurd h (by simp)
      | ok ks' =>
        rw [hks] at h
        cases h
        simp [ih (i + 1) ks' hks]

theorem keysFrom_ok (i : Nat) (rs : List BizRec)
    (h : ∀ r ∈ rs, isStrOrNull r.business_name = true) :
    ∃ ks, keysFrom i rs = .ok ks := by
  induction rs generalizing i with
  | nil => exact ⟨[], rfl⟩
  | cons r rs ih =>
    obtain ⟨k, hk⟩ := getDeduplicationKey_ok ("unique:" ++ toString i) r
      (h r (List.mem_cons_self r rs))
    obtain ⟨ks, hks⟩ := ih (i + 1) (fun r' hr' => h r' (List.mem_cons_of_mem r hr'))
    exact ⟨k :: ks, by simp [keysFrom, bind, Except.bind, hk, hks]⟩

theorem getAssoc_none_iff (seen : List (String × BizRec)) (k : String) :
    getAssoc seen k = none ↔ k ∉ seen.map Prod.fst := by
  induction seen with
  | nil => simp [getAssoc]
  | cons p rest ih =>
    obtain ⟨k', v⟩ := p
    by_cases hk : k' = k
    · subst hk
      simp [getAssoc]
    · simp [getAssoc, hk, ih, Ne.symm hk]

theorem setAssoc_map_fst_of_mem (seen : List (String × BizRec)) (k : String)
    (v : BizRec) (h : k ∈ seen.map Prod.fst) :
    (setAssoc seen k v).map Prod.fst = seen.map Prod.fst := by
  induction seen with
  | nil => simp at h
  | cons p rest ih =>
    obtain ⟨k', v'⟩ := p
    by_cases hk : k' = k
    · subst hk
      simp [setAssoc]
    · simp only [setAssoc, if_neg hk, List.map_cons]
      have hmem : k ∈ rest.map Prod.fst := by
        simp only [List.map_cons] at h
        rcases List.mem_cons.mp h with h1 | h1
        · exact absurd h1.symm hk
        · exact h1
      rw [ih hmem]

/-- The engine invariant: when every key computation succeeds, the loop
succeeds and its map holds exactly the already-collected keys absorbed
with the new ones, in first-seen order. -/
theorem dedupGo_keys (rs : List BizRec) (i : Nat) (seen : List (String × BizRec))
    (ks : List String) (h : keysFrom i rs = .ok ks) :
    ∃ seen', dedupGo i seen rs = .ok seen' ∧
      seen'.map Prod.fst = absorb (seen.map Prod.fst) ks := by
  induction rs generalizing i seen ks with
  | nil =>
    simp only [keysFrom] at h
    cases h
    exact ⟨seen, rfl, rfl⟩
  | cons r rs ih =>
    simp only [keysFrom, bind, Except.bind] at h
    cases hk : getDeduplicationKey ("unique:" ++ toString i) r with
    | error e => rw [hk] at h; exact absurd h (by simp)
    | ok k =>
      rw [hk] at h
      cases hks : keysFrom (i + 1) rs with
      | error e => rw [hks] at h; exact absurd h (by simp)
      | ok ks' =>
        rw [hks] at h
        cases h
        simp only [dedupGo, bind, Except.bind, hk]
        cases hget : getAssoc seen k with
        | some existing =>
          have hmem : k ∈ seen.map Prod.fst := by
            by_contra hmem
            rw [(getAssoc_none_iff seen k).mpr hmem] at hget
            exact Option.noConfusion hget
          obtain ⟨seen', hgo, hfst⟩ :=
            ih (i + 1) (setAssoc seen k (mergeRecords existing r)) ks' hks
          refine ⟨seen', hgo, ?_⟩
          rw [hfst, setAssoc_map_fst_of_mem seen k _ hmem]
          simp [absorb, hmem]
        | none =>
          have hmem : k ∉ seen.map Prod.fst := (getAssoc_none_iff seen k).mp hget
          obtain ⟨seen', hgo, hfst⟩ := ih (i + 1) (seen ++ [(k, r)]) ks' hks
          refine ⟨seen', hgo, ?_⟩
          rw [hfst]
          simp [absorb, hmem]

theorem mem_absorb (ks : List String) (acc : List String) (x : String) :
    x ∈ absorb acc ks ↔ x ∈ acc ∨ x ∈ ks := by
  induction ks generalizing acc with
  | nil => simp [absorb]
  | cons k ks ih =>
    by_cases hk : k ∈ acc
    · simp only [absorb, if_pos hk, ih]
      constructor
      · rintro (h | h)
        · exact Or.inl h
        · exact Or.inr (List.mem_cons_of_mem k h)
      · rintro (h | h)
        · exact Or.inl h
        · rcases List.mem_cons.mp h with h1 | h1
          · exact Or.inl (h1 ▸ hk)
          · exact Or.inr h1
    · simp only [absorb, if_neg hk, ih, List.mem_append, List.mem_singleton,
        List.mem_cons]
      tauto

theorem nodup_absorb (ks : List String) (acc : List String)
    (h : acc.Nodup) : (absorb acc ks).Nodup := by
  induction ks generalizing acc with
  | nil => exact h
  | cons k ks ih =>
    by_cases hk : k ∈ acc
    · simpa [absorb, if_pos hk] using ih acc h
    · simp only [absorb, if_neg hk]
      exact ih (acc ++ [k]) (by simp [List.nodup_append, h, hk])

theorem firstSeen_length (ks : List String) :
    (firstSeen ks).length = ks.toFinset.card := by
  have hnd : (firstSeen ks).Nodup := nodup_absorb ks [] List.nodup_nil
  have hmem : ∀ x, x ∈ firstSeen ks ↔ x ∈ ks := by
    intro x
    simp [firstSeen, mem_absorb]
  have hfin : (firstSeen ks).toFinset = ks.toFinset := by
    ext x
    simp [List.mem_toFinset, hmem]
  calc (firstSeen ks).length = (firstSeen ks).toFinset.card :=
        (List.toFinset_card_of_nodup hnd).symm
    _ = ks.toFinset.card := by rw [hfin]

/-- C8: on a nonempty sequence of records whose key computations yield
`ks` with exactly `ks.toFinset.card` distinct values, the engine returns
exactly one record per distinct key, between one and `N` of them, and its
internal map lists the keys in first-seen order. -/
theorem deduplicateRecords_one_per_key (rs : List BizRec) (ks : List String)
    (hks : keysFrom 0 rs = .ok ks) (hne : rs ≠ []) :
    ∃ out, deduplicateRecords rs = .ok out ∧
      out.length = ks.toFinset.card ∧
      1 ≤ ks.toFinset.card ∧ ks.toFinset.card ≤ rs.length ∧
      (dedupGo 0 [] rs).map (fun seen => seen.map Prod.fst) =
        .ok (firstSeen ks) := by
  obtain ⟨seen', hgo, hfst⟩ := dedupGo_keys rs 0 [] ks hks
  have hlen : ks.length = rs.length := keysFrom_length 0 rs ks hks
  have hkne : ks ≠ [] := by
    intro habs
    rw [habs] at hlen
    exact hne (List.eq_nil_of_length_eq_zero hlen.symm)
  have hfst' : seen'.map Prod.fst = firstSeen ks := by
    simpa [firstSeen] using hfst
  refine ⟨seen'.map Prod.snd, ?_, ?_, ?_, ?_, ?_⟩
  · simp [deduplicateRecords, hgo, Except.map]
  · calc (seen'.map Prod.snd).length = seen'.length := List.length_map _ _
      _ = (seen'.map Prod.fst).length := (List.length_map _ _).symm
      _ = (firstSeen ks).length := by rw [hfst']
      _ = ks.toFinset.card := firstSeen_length ks
  · obtain ⟨k, ks', rfl⟩ := List.exists_cons_of_ne_nil hkne
    exact Finset.card_pos.mpr ⟨k, by simp⟩
  · calc ks.toFinset.card ≤ ks.length := ks.toFinset_card_le
      _ = rs.length := hlen
  · simp only [hgo, Except.map]
    exact congrArg Except.ok hfst' 

/-- Witness for the C8 theorem: two records sharing one website key. -/
theorem deduplicateRecords_one_per_key_witness :
    ∃ out, deduplicateRecords [sampleA, sampleB] = .ok out ∧
      out.length =
        (["website:https://a.com", "website:https://a.com"] : List String).toFinset.card ∧
      1 ≤ (["website:https://a.com", "website:https://a.com"] : List String).toFinset.card ∧
      (["website:https://a.com", "website:https://a.com"] : List String).toFinset.card ≤
        ([sampleA, sampleB] : List BizRec).length ∧
      (dedupGo 0 [] [sampleA, sampleB]).map (fun seen => seen.map Prod.fst) =
        .ok (firstSeen ["website:https://a.com", "website:https://a.com"]) :=
  deduplicateRecords_one_per_key [sampleA, sampleB]
    ["website:https://a.com", "website:https://a.com"] (by decide) (by decide)

theorem mem_insertDesc (x a : BizRec) (l : List BizRec) :
    a ∈ insertDesc x l ↔ a = x ∨ a ∈ l := by
  induction l with
  | nil => simp [insertDesc]
  | cons y ys ih =>
    unfold insertDesc
    split_ifs with hc
    · simp [List.mem_cons]
    · simp only [List.mem_cons, ih]
      tauto

theorem sorted_insertDesc (x : BizRec) (l : List BizRec)
    (h : List.Pairwise descOrder l) :
    List.Pairwise descOrder (insertDesc x l) := by
  induction l with
  | nil => simp [insertDesc]
  | cons y ys ih =>
    rcases List.pairwise_cons.mp h with ⟨hy, hys⟩
    unfold insertDesc
    split_ifs with hc
    · refine List.pairwise_cons.mpr ⟨?_, h⟩
      intro a ha
      rcases List.mem_cons.mp ha with rfl | ha
      · exact le_of_lt hc
      · exact le_trans (hy a ha) (le_of_lt hc)
    · refine List.pairwise_cons.mpr ⟨?_, ih hys⟩
      intro a ha
      rcases (mem_insertDesc x a ys).mp ha with rfl | ha
      · exact le_of_not_lt hc
      · exact hy a ha

theorem filter_insertDesc (x : BizRec) (l : List BizRec) (c : ℚ)
    (hl : List.Pairwise descOrder l) :
    (insertDesc x l).filter (fun r => decide (confKey r = c)) =
      if confKey x = c then
        l.filter (fun r => decide (confKey r = c)) ++ [x]
      else l.filter (fun r => decide (confKey r = c)) := by
  induction l with
  | nil =>
    by_cases hx : confKey x = c <;> simp [insertDesc, List.filter, hx]
  | cons y ys ih =>
    rcases List.pairwise_cons.mp hl with ⟨hy, hys⟩
    by_cases hc : confOrZero y.confidence < confOrZero x.confidence
    · have hstep : insertDesc x (y :: ys) = x :: y :: ys := by
        simp only [insertDesc, if_pos hc]
      rw [hstep]
      by_cases hx : confKey x = c
      · have hnil : (y :: ys).filter (fun r => decide (confKey r = c)) = [] := by
          rw [List.filter_eq_nil_iff]
          intro a ha
          have hle : confKey a ≤ confKey y := by
            rcases List.mem_cons.mp ha with rfl | ha
            · exact le_refl _
            · exact hy a ha
          have hlt : confKey a < c := lt_of_le_of_lt hle (hx ▸ hc)
          simp [ne_of_lt hlt]
        rw [if_pos hx, List.filter_cons_of_pos (by simp [hx]), hnil]
        rfl
      · rw [if_neg hx, List.filter_cons_of_neg (by simp [hx])]
    · have hstep : insertDesc x (y :: ys) = y :: insertDesc x ys := by
        simp only [insertDesc, if_neg hc]
      rw [hstep]
      by_cases hyc : confKey y = c
      · rw [List.filter_cons_of_pos (by simp [hyc]), ih hys]
        by_cases hx : confKey x = c
        · rw [if_pos hx, if_pos hx, List.filter_cons_of_pos (by simp [hyc])]
          rfl
        · rw [if_neg hx, if_neg hx, List.filter_cons_of_pos (by simp [hyc])]
      · rw [List.filter_cons_of_neg (by simp [hyc]), ih hys]
        by_cases hx : confKey x = c
        · rw [if_pos hx, if_pos hx, List.filter_cons_of_neg (by simp [hyc])]
        · rw [if_neg hx, if_neg hx, List.filter_cons_of_neg (by simp [hyc])]

theorem perm_insertDesc (x : BizRec) (l : List BizRec) :
    List.Perm (insertDesc x l) (x :: l) := by
  induction l with
  | nil => rfl
  | cons y ys ih =>
    unfold insertDesc
    split_ifs with hc
    · rfl
    · exact (ih.cons y).trans (List.Perm.swap x y ys)

/-- All three facts about the fold of the stable insertion sort at once:
sortedness, permutation, and tie-stability via key-class filters. -/
theorem sortFold_props (l : List BizRec) (acc : List BizRec)
    (hs : List.Pairwise descOrder acc) :
    List.Pairwise descOrder (l.foldl (fun a x => insertDesc x a) acc) ∧
    List.Perm (l.foldl (fun a x => insertDesc x a) acc) (acc ++ l) ∧
    ∀ c : ℚ, (l.foldl (fun a x => insertDesc x a) acc).filter
        (fun r => decide (confKey r = c)) =
      acc.filter (fun r => decide (confKey r = c)) ++
        l.filter (fun r => decide (confKey r = c)) := by
  induction l generalizing acc with
  | nil => simpa using hs
  | cons x l ih =>
    obtain ⟨ihs, ihp, ihf⟩ := ih (insertDesc x acc) (sorted_insertDesc x acc hs)
    refine ⟨ihs, ?_, ?_⟩
    · refine ihp.trans ?_
      refine (((perm_insertDesc x acc).append_right l).trans ?_)
      exact List.perm_middle.symm.trans (by simp)
    · intro c
      rw [List.foldl_cons, ihf c, filter_insertDesc x acc c hs]
      by_cases hx : confKey x = c
      · rw [if_pos hx, List.filter_cons_of_pos (by simp [hx])]
        simp
      · rw [if_neg hx, List.filter_cons_of_neg (by simp [hx])]

/-- C1 counterexample: the collector pipeline emits the Google row as-is
— its phone is still `"(813) 555-1234"` — while the Record Normalizer
applied to the same candidate produces `"+18135551234"`: the orchestrator
never runs candidates through the Record Normalizer, so the emitted row
is not a CanonicalRecord. -/
theorem collectFromAllSources_skips_normalizer :
    (collectFromAllSources "Real Estate Agent" "Tampa" true
        (.ok [googleRawRec]) 10).map (fun res => res.rows.map BizRec.phone) =
      .ok [.vstr "(813) 555-1234"] ∧
    (normalizeRecord googleRawRec).map BizRec.phone = .ok (.vstr "+18135551234") ∧
    JVal.vstr "(813) 555-1234" ≠ JVal.vstr "+18135551234" := by decide

/-- C1 amended: the deployed collector concatenates the candidates of the
sources that succeeded in fetch-order and feeds them directly — without
record normalization — to the Deduplication Engine, then stable-sorts by
descending confidence and truncates to `maxResults`; the output length is
at most `maxResults`, the rows are sorted by descending confidence, the
sort is a permutation of the deduplicated set, and ties preserve
first-seen-key order (each equal-confidence class keeps the engine's
output order). -/
theorem collectFromAllSources_sorted_truncated (category geography : String)
    (gs : List BizRec) (maxResults : Nat) (ks : List String)
    (hks : keysFrom 0 gs = .ok ks) :
    ∃ res d, collectFromAllSources category geography true (.ok gs) maxResults =
        .ok res ∧
      deduplicateRecords gs = .ok d ∧
      res.rows = (sortByConfDesc d).take maxResults ∧
      res.rows.length ≤ maxResults ∧
      res.meta.total_found = res.rows.length ∧
      List.Pairwise descOrder res.rows ∧
      List.Perm (sortByConfDesc d) d ∧
      (∀ c : ℚ, (sortByConfDesc d).filter (fun r => decide (confKey r = c)) =
        d.filter (fun r => decide (confKey r = c))) := by
  obtain ⟨seen', hgo, hfst⟩ := dedupGo_keys gs 0 [] ks hks
  have hded : deduplicateRecords gs = .ok (seen'.map Prod.snd) := by
    simp [deduplicateRecords, hgo, Except.map]
  obtain ⟨hsorted, hperm, hfilter⟩ :=
    sortFold_props (seen'.map Prod.snd) [] List.Pairwise.nil
  have hcol : collectFromAllSources category geography true (.ok gs) maxResults =
      .ok { meta := {
              category := category,
              geography := geography,
              total_found :=
                ((sortByConfDesc (seen'.map Prod.snd)).take maxResults).length,
              sources_used := if gs.length > 0 then ["Google Places"] else [],
              errors := none },
            rows := (sortByConfDesc (seen'.map Prod.snd)).take maxResults } := by
    simp [collectFromAllSources, bind, Except.bind, hded]
  refine ⟨_, seen'.map Prod.snd, hcol, hded, rfl, ?_, rfl, ?_, ?_, ?_⟩
  · exact (List.length_take_le _ _)
  · exact hsorted.sublist (List.take_sublist _ _)
  · simpa using hperm
  · intro c
    simpa using hfilter c

/-- Witness for the amended C1 theorem on a two-record Google batch with
an oversupplied quota. -/
theorem collectFromAllSources_sorted_truncated_witness :
    ∃ res d, collectFromAllSources "Real Estate Agent" "Tampa" true
        (.ok [googleRawRec, sampleA]) 5 = .ok res ∧
      deduplicateRecords [googleRawRec, sampleA] = .ok d ∧
      res.rows = (sortByConfDesc d).take 5 ∧
      res.rows.length ≤ 5 ∧
      res.meta.total_found = res.rows.length ∧
      List.Pairwise descOrder res.rows ∧
      List.Perm (sortByConfDesc d) d ∧
      (∀ c : ℚ, (sortByConfDesc d).filter (fun r => decide (confKey r = c)) =
        d.filter (fun r => decide (confKey r = c))) :=
  collectFromAllSources_sorted_truncated "Real Estate Agent" "Tampa"
    [googleRawRec, sampleA] 5
    ["composite:abc realty:(813) 555-1234:33601", "website:https://a.com"]
    (by decide)

theorem toNat_ofNat_valid (n : Nat) (h : n < 55296) : (Char.ofNat n).toNat = n := by
  simp only [Char.ofNat, dif_pos (Or.inl h : Nat.isValidChar n), Char.ofNatAux,
    Char.toNat]
  rfl

theorem toUpper_toNat_of_lower (c : Char) (h1 : 97 ≤ c.toNat) (h2 : c.toNat ≤ 122) :
    c.toUpper.toNat = c.toNat - 32 := by
  simp only [Char.toUpper, if_pos (And.intro (by omega : c.toNat ≥ 97) h2)]
  exact toNat_ofNat_valid _ (by omega)

theorem toUpper_eq_self_of_not_lower (c : Char)
    (h : ¬(97 ≤ c.toNat ∧ c.toNat ≤ 122)) : c.toUpper = c := by
  simp only [Char.toUpper]
  rw [if_neg (by omega)]

theorem toUpper_toUpper (c : Char) : c.toUpper.toUpper = c.toUpper := by
  by_cases h : 97 ≤ c.toNat ∧ c.toNat ≤ 122
  · have hn := toUpper_toNat_of_lower c h.1 h.2
    exact toUpper_eq_self_of_not_lower _ (by omega)
  · rw [toUpper_eq_self_of_not_lower c h]
    exact toUpper_eq_self_of_not_lower c h

theorem toLower_toNat_of_upper (c : Char) (h1 : 65 ≤ c.toNat) (h2 : c.toNat ≤ 90) :
    c.toLower.toNat = c.toNat + 32 := by
  simp only [Char.toLower, if_pos (And.intro (by omega : c.toNat ≥ 65) h2)]
  exact toNat_ofNat_valid _ (by omega)

theorem toLower_eq_self_of_not_upper (c : Char)
    (h : ¬(65 ≤ c.toNat ∧ c.toNat ≤ 90)) : c.toLower = c := by
  simp only [Char.toLower]
  rw [if_neg (by omega)]

theorem toLower_toLower (c : Char) : c.toLower.toLower = c.toLower := by
  by_cases h : 65 ≤ c.toNat ∧ c.toNat ≤ 90
  · have hn := toLower_toNat_of_upper c h.1 h.2
    exact toLower_eq_self_of_not_upper _ (by omega)
  · rw [toLower_eq_self_of_not_upper c h]
    exact toLower_eq_self_of_not_upper c h

theorem isWsChar_toUpper (c : Char) : isWsChar c.toUpper = isWsChar c := by
  by_cases h : 97 ≤ c.toNat ∧ c.toNat ≤ 122
  · have hn := toUpper_toNat_of_lower c h.1 h.2
    simp only [isWsChar, hn]
    have a1 : ¬(c.toNat - 32 = 32) := by omega
    have a2 : ¬(c.toNat - 32 = 9) := by omega
    have a3 : ¬(c.toNat - 32 = 10) := by omega
    have a4 : ¬(c.toNat - 32 = 13) := by omega
    have b1 : ¬(c.toNat = 32) := by omega
    have b2 : ¬(c.toNat = 9) := by omega
    have b3 : ¬(c.toNat = 10) := by omega
    have b4 : ¬(c.toNat = 13) := by omega
    simp [a1, a2, a3, a4, b1, b2, b3, b4]
  · rw [toUpper_eq_self_of_not_lower c h]

theorem isWsChar_toLower (c : Char) : isWsChar c.toLower = isWsChar c := by
  by_cases h : 65 ≤ c.toNat ∧ c.toNat ≤ 90
  · have hn := toLower_toNat_of_upper c h.1 h.2
    simp only [isWsChar, hn]
    have a1 : ¬(c.toNat + 32 = 32) := by omega
    have a2 : ¬(c.toNat + 32 = 9) := by omega
    have a3 : ¬(c.toNat + 32 = 10) := by omega
    have a4 : ¬(c.toNat + 32 = 13) := by omega
    have b1 : ¬(c.toNat = 32) := by omega
    have b2 : ¬(c.toNat = 9) := by omega
    have b3 : ¬(c.toNat = 10) := by omega
    have b4 : ¬(c.toNat = 13) := by omega
    simp [a1, a2, a3, a4, b1, b2, b3, b4]
  · rw [toLower_eq_self_of_not_upper c h]

theorem dropWhile_head?_not {α : Type} (p : α → Bool) (l : List α) (x : α)
    (h : (l.dropWhile p).head? = some x) : p x = false := by
  induction l with
  | nil => simp [List.dropWhile] at h
  | cons a l ih =>
    by_cases ha : p a
    · rw [List.dropWhile_cons_of_pos ha] at h
      exact ih h
    · rw [List.dropWhile_cons_of_neg ha] at h
      cases h
      simpa using ha

theorem dropWhile_eq_self_of_head? {α : Type} (p : α → Bool) (l : List α)
    (h : ∀ x, l.head? = some x → p x = false) : l.dropWhile p = l := by
  cases l with
  | nil => rfl
  | cons a l => rw [List.dropWhile_cons_of_neg (by simp [h a rfl])]

theorem dropWhile_getLast? {α : Type} (p : α → Bool) (l : List α)
    (h : l.dropWhile p ≠ []) : (l.dropWhile p).getLast? = l.getLast? := by
  conv_rhs => rw [← List.takeWhile_append_dropWhile p l]
  rw [List.getLast?_append]
  cases hg : (l.dropWhile p).getLast? with
  | some x => rfl
  | none => exact absurd (List.getLast?_eq_none_iff.mp hg) h

theorem trimList_head?_not (l : List Char) (x : Char)
    (h : (trimList l).head? = some x) : isWsChar x = false := by
  unfold trimList at h
  rw [List.head?_reverse] at h
  by_cases hc : (((l.dropWhile isWsChar).reverse).dropWhile isWsChar) = []
  · rw [hc] at h
    simp at h
  · rw [dropWhile_getLast? _ _ hc, List.getLast?_reverse] at h
    exact dropWhile_head?_not _ _ _ h

theorem trimList_last?_not (l : List Char) (x : Char)
    (h : (trimList l).reverse.head? = some x) : isWsChar x = false := by
  unfold trimList at h
  rw [List.reverse_reverse] at h
  exact dropWhile_head?_not _ _ _ h

theorem trimList_eq_self (l : List Char)
    (h1 : ∀ x, l.head? = some x → isWsChar x = false)
    (h2 : ∀ x, l.reverse.head? = some x → isWsChar x = false) :
    trimList l = l := by
  unfold trimList
  rw [dropWhile_eq_self_of_head? _ _ h1, dropWhile_eq_self_of_head? _ _ h2]
  exact List.reverse_reverse l

theorem trimList_idem (l : List Char) : trimList (trimList l) = trimList l :=
  trimList_eq_self _ (trimList_head?_not l) (trimList_last?_not l)

theorem map_dropWhile {α : Type} (f : α → α) (p : α → Bool)
    (hf : ∀ c, p (f c) = p c) (l : List α) :
    (l.map f).dropWhile p = (l.dropWhile p).map f := by
  induction l with
  | nil => rfl
  | cons a l ih =>
    by_cases ha : p a
    · rw [List.map_cons, List.dropWhile_cons_of_pos (by rw [hf]; exact ha),
        List.dropWhile_cons_of_pos ha, ih]
    · rw [List.map_cons, List.dropWhile_cons_of_neg (by rw [hf]; simpa using ha),
        List.dropWhile_cons_of_neg ha, List.map_cons]

theorem trimList_map (f : Char → Char) (hf : ∀ c, isWsChar (f c) = isWsChar c)
    (l : List Char) : trimList (l.map f) = (trimList l).map f := by
  unfold trimList
  rw [map_dropWhile f _ hf, ← List.map_reverse, map_dropWhile f _ hf,
    ← List.map_reverse]

theorem jsTrim_idem (s : String) : jsTrim (jsTrim s) = jsTrim s :=
  String.ext (trimList_idem s.data)

theorem jsTrim_upperStr (s : String) : jsTrim (upperStr s) = upperStr (jsTrim s) :=
  String.ext (trimList_map Char.toUpper isWsChar_toUpper s.data)

theorem jsTrim_lowerStr (s : String) : jsTrim (lowerStr s) = lowerStr (jsTrim s) :=
  String.ext (trimList_map Char.toLower isWsChar_toLower s.data)

theorem upperStr_upperStr (s : String) : upperStr (upperStr s) = upperStr s := by
  refine String.ext ?_
  show (s.data.map Char.toUpper).map Char.toUpper = s.data.map Char.toUpper
  rw [List.map_map]
  exact List.map_congr_left (fun a _ => toUpper_toUpper a)

theorem lowerStr_lowerStr (s : String) : lowerStr (lowerStr s) = lowerStr s := by
  refine String.ext ?_
  show (s.data.map Char.toLower).map Char.toLower = s.data.map Char.toLower
  rw [List.map_map]
  exact List.map_congr_left (fun a _ => toLower_toLower a)

theorem trimField_idem (v w : JVal) (h : trimField v = .ok w) :
    trimField w = .ok w := by
  cases v with
  | vnull => cases h; rfl
  | vstr s =>
    simp only [trimField] at h
    by_cases ht : jsTrim s = ""
    · rw [if_pos ht] at h
      cases h
      rfl
    · rw [if_neg ht] at h
      cases h
      simp only [trimField, jsTrim_idem, if_neg ht]
  | vnum q => exact absurd h (by simp [trimField])
  | vbool b => exact absurd h (by simp [trimField])

theorem trimUpperField_idem (v w : JVal) (h : trimUpperField v = .ok w) :
    trimUpperField w = .ok w := by
  cases v with
  | vnull => cases h; rfl
  | vstr s =>
    simp only [trimUpperField] at h
    by_cases ht : upperStr (jsTrim s) = ""
    · rw [if_pos ht] at h
      cases h
      rfl
    · rw [if_neg ht] at h
      cases h
      have hstable : upperStr (jsTrim (upperStr (jsTrim s))) = upperStr (jsTrim s) := by
        rw [jsTrim_upperStr, jsTrim_idem, upperStr_upperStr]
      simp only [trimUpperField, hstable, if_neg ht]
  | vnum q => exact absurd h (by simp [trimUpperField])
  | vbool b => exact absurd h (by simp [trimUpperField])

theorem trimLowerField_idem (v w : JVal) (h : trimLowerField v = .ok w) :
    trimLowerField w = .ok w := by
  cases v with
  | vnull => cases h; rfl
  | vstr s =>
    simp only [trimLowerField] at h
    by_cases ht : lowerStr (jsTrim s) = ""
    · rw [if_pos ht] at h
      cases h
      rfl
    · rw [if_neg ht] at h
      cases h
      have hstable : lowerStr (jsTrim (lowerStr (jsTrim s))) = lowerStr (jsTrim s) := by
        rw [jsTrim_lowerStr, jsTrim_idem, lowerStr_lowerStr]
      simp only [trimLowerField, hstable, if_neg ht]
  | vnum q => exact absurd h (by simp [trimLowerField])
  | vbool b => exact absurd h (by simp [trimLowerField])

theorem trimUpperDefaultUS_idem (v w : JVal) (h : trimUpperDefaultUS v = .ok w) :
    trimUpperDefaultUS w = .ok w := by
  have hUS : trimUpperDefaultUS (.vstr "US") = .ok (.vstr "US") := by decide
  cases v with
  | vnull => cases h; exact hUS
  | vstr s =>
    simp only [trimUpperDefaultUS] at h
    by_cases ht : upperStr (jsTrim s) = ""
    · rw [if_pos ht] at h
      cases h
      exact hUS
    · rw [if_neg ht] at h
      cases h
      have hstable : upperStr (jsTrim (upperStr (jsTrim s))) = upperStr (jsTrim s) := by
        rw [jsTrim_upperStr, jsTrim_idem, upperStr_upperStr]
      simp only [trimUpperDefaultUS, hstable, if_neg ht]
  | vnum q => exact absurd h (by simp [trimUpperDefaultUS])
  | vbool b => exact absurd h (by simp [trimUpperDefaultUS])

theorem digitsOf_all (s : String) : ∀ c ∈ (digitsOf s).data, c.isDigit = true := by
  intro c hc
  exact List.of_mem_filter hc

theorem eq_empty_of_length_zero (s : String) (h : s.length = 0) : s = "" :=
  String.ext (List.eq_nil_of_length_eq_zero h)

theorem append_ne_empty_left (s t : String) (h : s ≠ "") : s ++ t ≠ "" := by
  intro habs
  have hl := congrArg String.length habs
  rw [String.length_append] at hl
  have h0 : ("" : String).length = 0 := rfl
  rw [h0] at hl
  exact h (eq_empty_of_length_zero s (by omega))

theorem jsStartsWith_append (p s : String) : jsStartsWith (p ++ s) p = true := by
  have hdata : (p ++ s).toList = p.toList ++ s.toList := String.data_append p s
  simp only [jsStartsWith, hdata]
  rw [List.isPrefixOf_iff_prefix]
  exact List.prefix_append _ _

theorem digitsOf_str (d : String) (hd : ∀ c ∈ d.data, c.isDigit = true) :
    digitsOf d = d :=
  String.ext (List.filter_eq_self.mpr hd)

theorem digitsOf_plus (d : String) (hd : ∀ c ∈ d.data, c.isDigit = true) :
    digitsOf ("+" ++ d) = d := by
  refine String.ext ?_
  show (("+" ++ d).data.filter Char.isDigit) = d.data
  rw [String.data_append]
  have : ("+" : String).data = ['+'] := rfl
  rw [this, List.singleton_append]
  rw [show ('+' :: d.data).filter Char.isDigit = d.data.filter Char.isDigit from
    List.filter_cons_of_neg (by decide)]
  exact List.filter_eq_self.mpr hd

theorem digitsOf_plus1 (d : String) (hd : ∀ c ∈ d.data, c.isDigit = true) :
    digitsOf ("+1" ++ d) = "1" ++ d := by
  refine String.ext ?_
  show (("+1" ++ d).data.filter Char.isDigit) = ("1" ++ d).data
  rw [String.data_append, String.data_append]
  have h1 : ("+1" : String).data = ['+', '1'] := rfl
  have h2 : ("1" : String).data = ['1'] := rfl
  rw [h1, h2, List.cons_append, List.singleton_append]
  rw [show ('+' :: '1' :: d.data).filter Char.isDigit =
      ('1' :: d.data).filter Char.isDigit from List.filter_cons_of_neg (by decide)]
  rw [List.filter_cons_of_pos (by decide)]
  rw [List.filter_eq_self.mpr hd]

theorem normalizePhone_vstr (s : String) (hs : s ≠ "") :
    normalizePhone (.vstr s) =
      (if (digitsOf s).length = 10 then .ok (.vstr ("+1" ++ digitsOf s))
       else if (digitsOf s).length = 11 && jsStartsWith (digitsOf s) "1" then
         .ok (.vstr ("+" ++ digitsOf s))
       else if jsStartsWith s "+" then .ok (.vstr s)
       else .ok (.vstr ("+" ++ digitsOf s))) := by
  unfold normalizePhone
  rw [if_neg (by simp [truthy, hs])]

theorem normalizePhone_idem (v w : JVal) (h : normalizePhone v = .ok w) :
    normalizePhone w = .ok w := by
  by_cases hv : truthy v = false
  · unfold normalizePhone at h
    rw [if_pos hv] at h
    cases h
    rfl
  · cases v with
    | vnull => simp [truthy] at hv
    | vnum q =>
      unfold normalizePhone at h
      rw [if_neg hv] at h
      exact absurd h (by simp)
    | vbool b =>
      unfold normalizePhone at h
      rw [if_neg hv] at h
      exact absurd h (by simp)
    | vstr s =>
      have hne : s ≠ "" := by
        intro habs
        exact hv (by simp [truthy, habs])
      rw [normalizePhone_vstr s hne] at h
      have hd : ∀ c ∈ (digitsOf s).data, c.isDigit = true := digitsOf_all s
      by_cases h10 : (digitsOf s).length = 10
      · rw [if_pos h10] at h
        cases h
        have hne2 : ("+1" ++ digitsOf s) ≠ "" :=
          append_ne_empty_left "+1" _ (by decide)
        rw [normalizePhone_vstr _ hne2, digitsOf_plus1 _ hd]
        have hlen : ("1" ++ digitsOf s).length = 11 := by
          rw [String.length_append]
          have h1 : ("1" : String).length = 1 := rfl
          rw [h1]
          omega
        rw [if_neg (by rw [hlen]; decide)]
        rw [if_pos (by simp [hlen, jsStartsWith_append])]
        have hplus1 : ("+" : String) ++ "1" = "+1" := by decide
        have hassoc : "+" ++ ("1" ++ digitsOf s) = "+1" ++ digitsOf s := by
          rw [← String.append_assoc, hplus1]
        rw [hassoc]
      · rw [if_neg h10] at h
        by_cases h11 : ((digitsOf s).length = 11 && jsStartsWith (digitsOf s) "1") = true
        · rw [if_pos h11] at h
          cases h
          have hne2 : ("+" ++ digitsOf s) ≠ "" :=
            append_ne_empty_left "+" _ (by decide)
          rw [normalizePhone_vstr _ hne2, digitsOf_plus _ hd]
          rw [if_neg h10, if_pos h11]
        · rw [if_neg (by simpa using h11)] at h
          by_cases hp : jsStartsWith s "+" = true
          · rw [if_pos hp] at h
            cases h
            rw [normalizePhone_vstr s hne]
            rw [if_neg h10, if_neg (by simpa using h11), if_pos hp]
          · rw [if_neg hp] at h
            cases h
            have hne2 : ("+" ++ digitsOf s) ≠ "" :=
              append_ne_empty_left "+" _ (by decide)
            rw [normalizePhone_vstr _ hne2, digitsOf_plus _ hd]
            rw [if_neg h10, if_neg (by simpa using h11)]
            rw [if_pos (jsStartsWith_append "+" _)]

theorem confidenceField_confidenceField (x : JVal) :
    confidenceField (confidenceField x) = confidenceField x := by
  cases x <;> rfl

/-- C6 amended: re-normalizing a normalized record reproduces it on every
field except possibly `website` (whose URL normalization is not
idempotent), and reproduces it exactly when the website value is stable
under a second `normalizeUrl`. -/
theorem normalizeRecord_idem_except_website (r c : BizRec)
    (h : normalizeRecord r = .ok c) :
    normalizeRecord c = .ok { c with website := normalizeUrl c.website } ∧
    (normalizeUrl c.website = c.website → normalizeRecord c = .ok c) := by
  obtain ⟨e1, e2, e3, e4, e5, e6, e7, e8, e9, e10, e11, e12, e13, e14, e15,
    e16, e17, e18⟩ := normalizeRecord_ok_inv r c h
  have f1 := trimField_idem _ _ e1
  have f2 := trimField_idem _ _ e2
  have f3 := trimField_idem _ _ e3
  have f4 := trimField_idem _ _ e4
  have f5 := trimUpperField_idem _ _ e5
  have f6 := trimField_idem _ _ e6
  have f7 := trimUpperDefaultUS_idem _ _ e7
  have f8 := normalizePhone_idem _ _ e8
  have f9 := trimLowerField_idem _ _ e9
  have f11 := trimField_idem _ _ e11
  have f13 := trimField_idem _ _ e13
  have fconf : confidenceField c.confidence = c.confidence := by
    rw [e12, confidenceField_confidenceField]
  have hmain : normalizeRecord c = .ok { c with website := normalizeUrl c.website } := by
    simp only [normalizeRecord, bind, Except.bind, f1, f2, f3, f4, f5, f6, f7,
      f8, f9, f11, f13]
    rw [fconf]
    congr 1
    cases c
    simp_all
  exact ⟨hmain, fun hw => by rw [hmain, hw]⟩

/-- C6 counterexample: normalization is not idempotent.  The `www.`
collapse removes only one prefix per pass, so the website of the doubly
`www.`-ed record changes again on the second normalization. -/
theorem normalizeRecord_not_idempotent :
    (normalizeRecord doubleWwwRec).map BizRec.website =
      .ok (.vstr "https://www.ex.com") ∧
    ((normalizeRecord doubleWwwRec).bind normalizeRecord).map BizRec.website =
      .ok (.vstr "https://ex.com") ∧
    (normalizeRecord doubleWwwRec).bind normalizeRecord ≠
      normalizeRecord doubleWwwRec := by decide

/-- Witness for the amended C6 theorem on a record whose normalized
website is stable (absent). -/
theorem normalizeRecord_idem_except_website_witness :
    normalizeRecord { blankRec with country := .vstr "US", confidence := .vnum (qlit 1 2) } =
      .ok { blankRec with country := .vstr "US", confidence := .vnum (qlit 1 2) } :=
  (normalizeRecord_idem_except_website blankRec
    { blankRec with country := .vstr "US", confidence := .vnum (qlit 1 2) }
    (by decide)).2 (by decide)
